import Mathlib

/-!
Verification of the `retry` package (Attempt/Timer state machine).

Shallow embedding conventions:
* `time.Time` and `time.Duration` are modelled as `Int` (nanoseconds).
* A `Timer` (Go interface with method `NextSleep(now) (time.Duration, bool)`,
  mutating internal cursor state) is modelled as a state type `σ` together
  with a step function `f : σ → Int → Int × Bool × σ` returning
  (sleep, ok, updated state).
* The `clock.Clock` bound to an Attempt is modelled by the `now` field of the
  Attempt state: `clock.Now()` reads it, and a completed wait on
  `clock.After(sleep)` advances it by `sleep` (exactly the `mockClock` used by
  the package's own tests); external passage of time between calls is modelled
  by the explicit `setNow` operation.
* The `stop` channel is modelled by a per-call Boolean `stopClosed` saying
  whether the cancellation signal is active when the wait begins.  The Go
  `select` between `clock.After(sleep)` and `stop` is resolved by readiness
  time: a closed `stop` channel is ready immediately, while the timer channel
  becomes ready only after `sleep` elapses, so an already-active cancellation
  wins the race and no time is spent waiting.
-/

namespace Retry

/-- State of a running retry attempt, mirroring the Go struct
`Attempt { clock; stop; timer; count int; waited bool; running bool }`.
The bound clock's current reading is the `now` field; the timer's internal
cursor state is the `timer` field (its `NextSleep` method is passed to each
operation as the step function `f`). -/
structure Attempt (σ : Type) where
  now : Int
  timer : σ
  count : Nat
  waited : Bool
  running : Bool
deriving DecidableEq, Repr

/-- Go `Start(strategy, clk, stop)`: builds the timer from the strategy at the
clock's current reading (`strategy.NewTimer(clk.Now())`) and starts with
`count = 0`, `waited = true`, `running = true`.  The strategy is represented by
its `NewTimer` method `newTimer : Int → σ`. -/
def Start (newTimer : Int → σ) (now0 : Int) : Attempt σ :=
  { now := now0, timer := newTimer now0, count := 0, waited := true, running := true }

/-- External passage (or test-driven setting) of the clock between calls:
`clk.now = t`. -/
def Attempt.setNow (t : Int) (a : Attempt σ) : Attempt σ :=
  { a with now := t }

/-- Go `(*Attempt).HasNext`: if the wait for the current position was already
performed, or the attempt is no longer running, return `running` unchanged;
otherwise query the timer's `NextSleep` at the current clock reading, stop if
it says so, otherwise wait for the returned sleep (racing the cancellation
signal, with an already-closed stop channel winning and aborting the run). -/
def Attempt.hasNext (f : σ → Int → Int × Bool × σ) (stopClosed : Bool) (a : Attempt σ) :
    Bool × Attempt σ :=
  if a.waited || !a.running then
    (a.running, a)
  else
    let r := f a.timer a.now
    if !r.2.1 then
      (false, { a with timer := r.2.2, waited := true, running := false })
    else if stopClosed then
      (false, { a with timer := r.2.2, waited := true, running := false })
    else
      (true, { a with timer := r.2.2, waited := true, now := a.now + r.1 })

/-- Go `(*Attempt).Next`: perform the `HasNext` wait-check, clear the `waited`
flag, and if still running increment the counter; return `running`.
(`Count()` is the `count` field accessor.) -/
def Attempt.next (f : σ → Int → Int × Bool × σ) (stopClosed : Bool) (a : Attempt σ) :
    Bool × Attempt σ :=
  let a1 := { (Attempt.hasNext f stopClosed a).2 with waited := false }
  if a1.running then
    (true, { a1 with count := a1.count + 1 })
  else
    (false, a1)

/-- One step of a caller's interaction with an Attempt: let time pass
(`setNow`), call `Next`, or call `HasNext` (the latter two each with the
cancellation signal's state at that moment). -/
inductive Op where
  | setNow (t : Int)
  | next (stopClosed : Bool)
  | hasNext (stopClosed : Bool)
deriving DecidableEq, Repr

/-- Apply one operation to an Attempt state. -/
def runOp (f : σ → Int → Int × Bool × σ) (a : Attempt σ) : Op → Attempt σ
  | Op.setNow t => a.setNow t
  | Op.next s => (Attempt.next f s a).2
  | Op.hasNext s => (Attempt.hasNext f s a).2

/-- Run a whole sequence of operations. -/
def runTrace (f : σ → Int → Int × Bool × σ) : List Op → Attempt σ → Attempt σ
  | [], a => a
  | op :: ops, a => runTrace f ops (runOp f a op)

/-- Booleans returned by the `Next`/`HasNext` calls of a trace, in order. -/
def results (f : σ → Int → Int × Bool × σ) : List Op → Attempt σ → List Bool
  | [], _ => []
  | Op.setNow t :: ops, a => results f ops (a.setNow t)
  | Op.next s :: ops, a => (Attempt.next f s a).1 :: results f ops (Attempt.next f s a).2
  | Op.hasNext s :: ops, a => (Attempt.hasNext f s a).1 :: results f ops (Attempt.hasNext f s a).2

/-- Number of `Next` calls of a trace that returned `true`. -/
def trueNextCount (f : σ → Int → Int × Bool × σ) : List Op → Attempt σ → Nat
  | [], _ => 0
  | Op.setNow t :: ops, a => trueNextCount f ops (a.setNow t)
  | Op.next s :: ops, a =>
      (if (Attempt.next f s a).1 then 1 else 0) + trueNextCount f ops (Attempt.next f s a).2
  | Op.hasNext s :: ops, a => trueNextCount f ops (Attempt.hasNext f s a).2

/-- If the wait was already performed (or the run is over), `HasNext` returns
the `running` flag and changes nothing. -/
theorem hasNext_stable (f : σ → Int → Int × Bool × σ) (s : Bool) (a : Attempt σ)
    (h : a.waited = true ∨ a.running = false) :
    Attempt.hasNext f s a = (a.running, a) := by
  rcases h with h | h <;> simp [Attempt.hasNext, h]

/-- After any `HasNext` call the memoization condition holds, the returned
Boolean is the resulting `running` flag, and the counter is unchanged. -/
theorem hasNext_post (f : σ → Int → Int × Bool × σ) (s : Bool) (a : Attempt σ) :
    ((Attempt.hasNext f s a).2.waited = true ∨ (Attempt.hasNext f s a).2.running = false)
    ∧ (Attempt.hasNext f s a).1 = (Attempt.hasNext f s a).2.running
    ∧ (Attempt.hasNext f s a).2.count = a.count := by
  by_cases hw : (a.waited || !a.running) = true
  · have hw' : a.waited = true ∨ a.running = false := by
      revert hw
      cases a.waited <;> cases a.running <;> simp
    rcases hw' with h | h
    · simp [hasNext_stable f s a (Or.inl h), h]
    · have h' : a.running = false := by simpa using h
      simp [hasNext_stable f s a (Or.inr h'), h']
  · have hrun : a.running = true := by
      revert hw
      cases a.running <;> simp
    simp only [Attempt.hasNext]
    rw [if_neg hw]
    cases hok : (f a.timer a.now).2.1 <;> cases s <;> simp [hrun]

/-- `Next` returns the resulting `running` flag, increments the counter exactly
when it returns `true`, clears the memoization flag, and keeps the `running`
flag computed by the internal `HasNext`. -/
theorem next_post (f : σ → Int → Int × Bool × σ) (s : Bool) (a : Attempt σ) :
    (Attempt.next f s a).1 = (Attempt.next f s a).2.running
    ∧ (Attempt.next f s a).2.count
        = a.count + (if (Attempt.next f s a).1 then 1 else 0)
    ∧ (Attempt.next f s a).2.waited = false
    ∧ (Attempt.next f s a).2.running = (Attempt.hasNext f s a).2.running := by
  have hc := (hasNext_post f s a).2.2
  simp only [Attempt.next]
  cases hr : (Attempt.hasNext f s a).2.running <;> simp [hr, hc]

/-- Claim C1: for every Strategy (however degenerate), the first call to `Next`
on a freshly started Attempt returns `true` without querying the Timer: the
result and the final state are independent of the timer's step function `f`
and of the cancellation signal, the timer state is left exactly as
`NewTimer` produced it, and no time is spent waiting. -/
theorem C1_first_next_always_true (newTimer : Int → σ)
    (f : σ → Int → Int × Bool × σ) (s : Bool) (now0 : Int) :
    Attempt.next f s (Start newTimer now0)
      = (true, { now := now0, timer := newTimer now0, count := 1,
                 waited := false, running := true }) := by
  simp [Attempt.next, Attempt.hasNext, Start]

/-- Claim C5: in every Attempt state, `HasNext` returns exactly the value that
an immediately following `Next` call returns (whatever time passes and
whatever the cancellation signal does in between), and `HasNext` leaves the
attempt counter unchanged. -/
theorem C5_hasNext_predicts_next (f : σ → Int → Int × Bool × σ)
    (s s' : Bool) (t : Int) (a : Attempt σ) :
    (Attempt.next f s' ((Attempt.hasNext f s a).2.setNow t)).1 = (Attempt.hasNext f s a).1
    ∧ (Attempt.hasNext f s a).2.count = a.count := by
  have hp := hasNext_post f s a
  have hst : ((Attempt.hasNext f s a).2.setNow t).waited = true
      ∨ ((Attempt.hasNext f s a).2.setNow t).running = false := by
    simpa [Attempt.setNow] using hp.1
  have hs := hasNext_stable f s' _ hst
  refine ⟨?_, hp.2.2⟩
  simp only [Attempt.next, hs]
  cases hr : (Attempt.hasNext f s a).2.running <;>
    simp [Attempt.setNow, hr, hp.2.1]

/-- Claim C6: if the cancellation signal is already active before any wait
begins, the loop grants exactly one attempt — the first `Next` returns `true`
and leaves `count = 1` — and then terminates: the second `Next` (at any later
clock reading `t1`) returns `false`, exactly as natural exhaustion would,
leaves `running = false`, leaves `count = 1`, and spends no time waiting
(`now` is unchanged), for every strategy, i.e. every configured delay and
budget. -/
theorem C6_precancelled_grants_exactly_one (newTimer : Int → σ)
    (f : σ → Int → Int × Bool × σ) (now0 t1 : Int) :
    (Attempt.next f true (Start newTimer now0)).1 = true
    ∧ (Attempt.next f true (Start newTimer now0)).2.count = 1
    ∧ (Attempt.next f true ((Attempt.next f true (Start newTimer now0)).2.setNow t1)).1 = false
    ∧ (Attempt.next f true
        ((Attempt.next f true (Start newTimer now0)).2.setNow t1)).2.running = false
    ∧ (Attempt.next f true
        ((Attempt.next f true (Start newTimer now0)).2.setNow t1)).2.count = 1
    ∧ (Attempt.next f true
        ((Attempt.next f true (Start newTimer now0)).2.setNow t1)).2.now = t1 := by
  have h1 : Attempt.next f true (Start newTimer now0)
      = (true, { now := now0, timer := newTimer now0, count := 1,
                 waited := false, running := true }) := by
    simp [Attempt.next, Attempt.hasNext, Start]
  simp only [h1, Attempt.setNow]
  simp only [Attempt.next, Attempt.hasNext]
  cases hok : (f (newTimer now0) t1).2.1 <;> simp [hok]

/-- Claim C10: when the Timer's `NextSleep` reports stop during a `HasNext`
call (on a state that actually owes a wait), the Attempt terminates
immediately and returns `false`; the final state is independent of the
cancellation signal `s` (it is never consulted), no time is spent waiting
(`now` unchanged), the returned sleep duration is ignored (only the updated
timer state appears in the result), and the attempt counter is unchanged. -/
theorem C10_timer_stop_terminates (f : σ → Int → Int × Bool × σ) (s : Bool) (a : Attempt σ)
    (hw : a.waited = false) (hr : a.running = true)
    (hok : (f a.timer a.now).2.1 = false) :
    Attempt.hasNext f s a
      = (false, { now := a.now, timer := (f a.timer a.now).2.2, count := a.count,
                  waited := true, running := false }) := by
  obtain ⟨n0, t0, c0, w0, r0⟩ := a
  dsimp only at hw hr hok ⊢
  subst hw hr
  simp [Attempt.hasNext, hok]

/-- Witness for C10 at a concrete timer that immediately reports stop. -/
theorem C10_witness :
    ((fun (_ : Unit) (_ : Int) => ((5:Int), false, ())) () (7:Int)).2.1 = false
    ∧ Attempt.hasNext (fun (_ : Unit) (_ : Int) => ((5:Int), false, ())) true
        { now := 7, timer := (), count := 3, waited := false, running := true }
      = (false, { now := 7, timer := (), count := 3, waited := true, running := false }) :=
  ⟨rfl, C10_timer_stop_terminates (fun _ _ => ((5:Int), false, ())) true
    { now := 7, timer := (), count := 3, waited := false, running := true } rfl rfl rfl⟩

/-- A dead Attempt stays dead across any single operation. -/
theorem runOp_dead (f : σ → Int → Int × Bool × σ) (a : Attempt σ)
    (h : a.running = false) (op : Op) :
    (runOp f a op).running = false := by
  cases op with
  | setNow t => simpa [runOp, Attempt.setNow] using h
  | next s =>
      have := (next_post f s a).2.2.2
      rw [runOp, this, hasNext_stable f s a (Or.inr h)]
      exact h
  | hasNext s =>
      rw [runOp, hasNext_stable f s a (Or.inr h)]
      exact h

/-- A dead Attempt stays dead across any trace. -/
theorem runTrace_dead (f : σ → Int → Int × Bool × σ) :
    ∀ (ops : List Op) (a : Attempt σ), a.running = false →
      (runTrace f ops a).running = false := by
  intro ops
  induction ops with
  | nil => intro a h; simpa [runTrace] using h
  | cons op ops ih => intro a h; exact ih _ (runOp_dead f a h op)

/-- Every `Next`/`HasNext` call of any trace run from a dead Attempt
returns `false`. -/
theorem results_dead (f : σ → Int → Int × Bool × σ) :
    ∀ (ops : List Op) (a : Attempt σ), a.running = false →
      ∀ b ∈ results f ops a, b = false := by
  intro ops
  induction ops with
  | nil => intro a h b hb; simp [results] at hb
  | cons op ops ih =>
    intro a h b hb
    cases op with
    | setNow t =>
        have h' : (a.setNow t).running = false := by simpa [Attempt.setNow] using h
        have hb' : b ∈ results f ops (a.setNow t) := by simpa [results] using hb
        exact ih (a.setNow t) h' b hb'
    | next s =>
        have hfalse : (Attempt.next f s a).1 = false := by
          rw [(next_post f s a).1, (next_post f s a).2.2.2,
            hasNext_stable f s a (Or.inr h)]
          exact h
        have hdead : (Attempt.next f s a).2.running = false := by
          rw [← (next_post f s a).1]; exact hfalse
        rcases (by simpa [results] using hb :
            b = (Attempt.next f s a).1 ∨ b ∈ results f ops (Attempt.next f s a).2) with
          hb' | hb'
        · rw [hb', hfalse]
        · exact ih _ hdead b hb'
    | hasNext s =>
        have hstab := hasNext_stable f s a (Or.inr h)
        rcases (by simpa [results] using hb :
            b = (Attempt.hasNext f s a).1 ∨ b ∈ results f ops (Attempt.hasNext f s a).2) with
          hb' | hb'
        · rw [hb', hstab]; exact h
        · rw [hstab] at hb'
          exact ih _ h b hb'

/-- Claim C3: termination is stable — once `Next` returns `false`, every
subsequent `Next` and `HasNext` call (in any interleaving, with any clock
movement and cancellation activity) returns `false`, the Attempt stays
non-running, and more generally no operation ever turns the `running` flag
back from `false` to `true`. -/
theorem C3_terminal_stability (f : σ → Int → Int × Bool × σ) (s : Bool) (a : Attempt σ)
    (h : (Attempt.next f s a).1 = false) (ops : List Op) :
    (∀ b ∈ results f ops (Attempt.next f s a).2, b = false)
    ∧ (runTrace f ops (Attempt.next f s a).2).running = false
    ∧ (∀ (a' : Attempt σ) (op : Op), a'.running = false → (runOp f a' op).running = false) := by
  have hd : (Attempt.next f s a).2.running = false := by
    rw [← (next_post f s a).1]; exact h
  exact ⟨results_dead f ops _ hd, runTrace_dead f ops _ hd,
    fun a' op h' => runOp_dead f a' h' op⟩

/-- Witness for C3: a timer that stops at its first query; the second `Next`
returns `false` and everything after it stays `false`. -/
theorem C3_witness :
    (Attempt.next (fun (_ : Unit) (_ : Int) => ((0:Int), false, ())) true
      { now := 0, timer := (), count := 1, waited := false, running := true }).1 = false
    ∧ (runTrace (fun (_ : Unit) (_ : Int) => ((0:Int), false, ()))
        [Op.next true, Op.hasNext false]
        (Attempt.next (fun (_ : Unit) (_ : Int) => ((0:Int), false, ())) true
          { now := 0, timer := (), count := 1, waited := false, running := true }).2).running
      = false :=
  ⟨by decide,
    (C3_terminal_stability (fun _ _ => ((0:Int), false, ())) true
      { now := 0, timer := (), count := 1, waited := false, running := true }
      (by decide) [Op.next true, Op.hasNext false]).2.1⟩

/-- The counter after a trace is the starting counter plus the number of
`Next` calls of the trace that returned `true`. -/
theorem runTrace_count (f : σ → Int → Int × Bool × σ) :
    ∀ (ops : List Op) (a : Attempt σ),
      (runTrace f ops a).count = a.count + trueNextCount f ops a := by
  intro ops
  induction ops with
  | nil => intro a; simp [runTrace, trueNextCount]
  | cons op ops ih =>
    intro a
    cases op with
    | setNow t =>
        simp [runTrace, runOp, trueNextCount, ih, Attempt.setNow]
    | next s =>
        have hcnt := (next_post f s a).2.1
        simp only [runTrace, runOp, trueNextCount, ih, hcnt]
        omega
    | hasNext s =>
        have hcnt := (hasNext_post f s a).2.2
        simp only [runTrace, runOp, trueNextCount, ih, hcnt]

/-- Claim C4: for every Attempt and every sequence of `Next`/`HasNext` calls
(`Count()` being the pure `count` field read), the counter equals the number
of `Next` calls that returned `true` so far; it is 0 on a freshly started
Attempt, each `Next` adds exactly 1 when (and only when) it returns `true`,
and `HasNext` never changes it — so no operation ever decreases it. -/
theorem C4_count_equals_true_nexts (f : σ → Int → Int × Bool × σ) (newTimer : Int → σ)
    (now0 : Int) (ops : List Op) :
    (runTrace f ops (Start newTimer now0)).count = trueNextCount f ops (Start newTimer now0)
    ∧ (Start newTimer now0).count = 0
    ∧ (∀ (a : Attempt σ) (s : Bool),
        (Attempt.next f s a).2.count
          = a.count + (if (Attempt.next f s a).1 then 1 else 0))
    ∧ (∀ (a : Attempt σ) (s : Bool), (Attempt.hasNext f s a).2.count = a.count) := by
  refine ⟨?_, rfl, fun a s => (next_post f s a).2.1, fun a s => (hasNext_post f s a).2.2⟩
  have := runTrace_count f ops (Start newTimer now0)
  simpa [Start] using this

/-- Instrument a timer step function with a counter of `NextSleep`
invocations, carried inside the timer state (opaque to the Attempt; in the
code every wait is performed immediately after — and only after — a
successful `NextSleep` query, so this counter also bounds the number of
waits). -/
def countingStep (f : σ → Int → Int × Bool × σ) :
    σ × Nat → Int → Int × Bool × (σ × Nat) :=
  fun p now => ((f p.1 now).1, (f p.1 now).2.1, ((f p.1 now).2.2, p.2 + 1))

/-- A burst of consecutive `HasNext` calls with no intervening `Next`: before
each call the clock may have moved (first component of the input) and the
cancellation signal may or may not be active (second component). -/
def peekSeq (f : σ → Int → Int × Bool × σ) :
    List (Int × Bool) → Attempt σ → List Bool × Attempt σ
  | [], a => ([], a)
  | (t, s) :: L, a =>
      let r := Attempt.hasNext f s (a.setNow t)
      let rest := peekSeq f L r.2
      (r.1 :: rest.1, rest.2)

/-- On a state whose wait is already memoized (or which is dead), a burst of
peeks returns `running` each time and leaves the timer, the memoization flag
and the running flag untouched. -/
theorem peekSeq_stable (f : σ → Int → Int × Bool × σ) :
    ∀ (L : List (Int × Bool)) (a : Attempt σ),
      (a.waited = true ∨ a.running = false) →
      (peekSeq f L a).1 = List.replicate L.length a.running
      ∧ (peekSeq f L a).2.timer = a.timer
      ∧ (peekSeq f L a).2.waited = a.waited
      ∧ (peekSeq f L a).2.running = a.running := by
  intro L
  induction L with
  | nil => intro a h; simp [peekSeq]
  | cons p L ih =>
    intro a h
    obtain ⟨t, s⟩ := p
    have hst : ((a.setNow t).waited = true ∨ (a.setNow t).running = false) := by
      simpa [Attempt.setNow] using h
    have hs := hasNext_stable f s (a.setNow t) hst
    have hrec := ih (a.setNow t) hst
    simp only [peekSeq, hs, List.length_cons, List.replicate_succ]
    refine ⟨?_, ?_, ?_, ?_⟩
    · rw [hrec.1]
      rfl
    · rw [hrec.2.1]
      rfl
    · rw [hrec.2.2.1]
      rfl
    · rw [hrec.2.2.2]
      rfl

/-- One `HasNext` call queries the timer at most once. -/
theorem hasNext_query_bound (f : σ → Int → Int × Bool × σ) (s : Bool)
    (a : Attempt (σ × Nat)) :
    (Attempt.hasNext (countingStep f) s a).2.timer.2 ≤ a.timer.2 + 1 := by
  by_cases hw : (a.waited || !a.running) = true
  · have h' : a.waited = true ∨ a.running = false := by
      revert hw
      cases a.waited <;> cases a.running <;> simp
    rw [hasNext_stable _ s a h']
    dsimp only
    omega
  · simp only [Attempt.hasNext]
    rw [if_neg hw]
    cases hok : (countingStep f a.timer a.now).2.1 <;> cases s <;>
      simp [countingStep] at hok ⊢

/-- Claim C2: for every Attempt and every N ≥ 1, calling `HasNext` N times
consecutively with no intervening `Next` call — whatever the clock does and
whatever the cancellation signal does between the calls — returns the same
Boolean on every one of the N calls now and invokes the Timer's `NextSleep`
at most once (and hence performs at most one wait, since every wait in the
code immediately follows a successful `NextSleep` query). -/
theorem C2_peek_idempotent (f : σ → Int → Int × Bool × σ)
    (p : Int × Bool) (L : List (Int × Bool)) (a : Attempt (σ × Nat)) :
    (peekSeq (countingStep f) (p :: L) a).1
      = List.replicate (L.length + 1)
          (Attempt.hasNext (countingStep f) p.2 (a.setNow p.1)).1
    ∧ (peekSeq (countingStep f) (p :: L) a).2.timer.2 ≤ a.timer.2 + 1 := by
  obtain ⟨t, s⟩ := p
  have hp := hasNext_post (countingStep f) s (a.setNow t)
  have hst := peekSeq_stable (countingStep f) L
    (Attempt.hasNext (countingStep f) s (a.setNow t)).2 hp.1
  have hb := hasNext_query_bound f s (a.setNow t)
  constructor
  · simp [peekSeq, hst.1, hp.2.1, List.replicate_succ]
  · have htimer := hst.2.1
    simp only [peekSeq]
    rw [htimer]
    simpa [Attempt.setNow] using hb

/-- Modelled from the spec: the `Regular` strategy (its implementation is not
among the sources; only its tests and callers are).  "Regular: fixed delay
between attempts, bounded by a total elapsed-time budget, with an optional
minimum attempt count floor that overrides the time budget." -/
structure Regular where
  total : Int
  delay : Int
  min : Nat
deriving DecidableEq, Repr

/-- Modelled from the spec: the stateful cursor of a `Regular` strategy.
It "on construction records start time" and owns "internal cursor state
(e.g., elapsed count, deadline, next scheduled instant)": `instant` is the
wake instant of the last granted attempt (the start time at creation, since
the first attempt wakes immediately), and `attempts` counts attempts so far;
because the first attempt is granted without consulting the timer and
`NextSleep` "is called once after each iteration has completed", at the k-th
query k attempts have already been granted, so the count starts at 1. -/
structure RegularTimer where
  strategy : Regular
  start : Int
  instant : Int
  attempts : Nat
deriving DecidableEq, Repr

/-- Modelled from the spec: `Regular.NewTimer(now)` records the start time. -/
def Regular.newTimer (r : Regular) (now : Int) : RegularTimer :=
  { strategy := r, start := now, instant := now, attempts := 1 }

/-- Modelled from the spec: `Regular`'s `NextSleep`.  "On each advance(now):
if attempts-so-far < min, always continue with delay sleep (ignoring total
budget)."  Otherwise the next scheduled instant is one delay past the
previous wake instant (`start + delay × attemptsSoFar` along the nominal
cadence when queries are on time); "if that instant is already ≤ now, sleep
is 0 (catch-up, no drift accumulation); else sleep = instant − now.  Continue
only if (now + sleep) would not exceed start + total" (the min-attempts
alternative being already handled by the first branch).  The cursor then
records the new wake instant `now + sleep`, so a late zero-sleep query does
not push later instants out by the lateness amount — exactly the behaviour
pinned down by the repository's `strategyTests` ("regular retry with call
after next deadline"). -/
def RegularTimer.nextSleep (t : RegularTimer) (now : Int) : Int × Bool × RegularTimer :=
  if t.attempts < t.strategy.min then
    (t.strategy.delay, true,
      { t with instant := now + t.strategy.delay, attempts := t.attempts + 1 })
  else
    let nominal := t.instant + t.strategy.delay
    let sleep := if nominal ≤ now then 0 else nominal - now
    (sleep, decide (now + sleep ≤ t.start + t.strategy.total),
      { t with instant := now + sleep, attempts := t.attempts + 1 })

/-- Claim C7: for a `Regular` strategy, a query later than the next scheduled
instant returns a sleep of 0; the sleep is never negative (for a
non-negative configured delay); an on-time query advances the schedule by
exactly one delay, independently of how early the query came; and on the
concrete configuration Regular(total=3.5e9, delay=1e9), `Next` calls at
elapsed times 0.5e9, 2e9, 2.1e9, 3e9 yield sleeps 0, 0, 0.9e9, 0 (the clock
after each call reads 0.5e9, 2e9, 3e9, 3e9) with the run terminating on the
fourth call: the late call at 2e9 sleeps 0 and subsequent instants resume
the original 1e9 cadence (3e9, then the 4e9 deadline check) instead of
shifting by the lateness. -/
theorem C7_regular_no_drift (t : RegularTimer) (now : Int) :
    (t.strategy.min ≤ t.attempts → t.instant + t.strategy.delay ≤ now →
        (t.nextSleep now).1 = 0)
    ∧ (0 ≤ t.strategy.delay → 0 ≤ (t.nextSleep now).1)
    ∧ (t.strategy.min ≤ t.attempts → now ≤ t.instant + t.strategy.delay →
        (t.nextSleep now).2.2.instant = t.instant + t.strategy.delay)
    ∧ results RegularTimer.nextSleep
        [Op.setNow 500000000, Op.next false, Op.setNow 2000000000, Op.next false,
         Op.setNow 2100000000, Op.next false, Op.setNow 3000000000, Op.next false]
        (Start (Regular.newTimer { total := 3500000000, delay := 1000000000, min := 0 }) 0)
      = [true, true, true, false]
    ∧ [(runTrace RegularTimer.nextSleep
          [Op.setNow 500000000, Op.next false]
          (Start (Regular.newTimer { total := 3500000000, delay := 1000000000, min := 0 }) 0)).now,
       (runTrace RegularTimer.nextSleep
          [Op.setNow 500000000, Op.next false, Op.setNow 2000000000, Op.next false]
          (Start (Regular.newTimer { total := 3500000000, delay := 1000000000, min := 0 }) 0)).now,
       (runTrace RegularTimer.nextSleep
          [Op.setNow 500000000, Op.next false, Op.setNow 2000000000, Op.next false,
           Op.setNow 2100000000, Op.next false]
          (Start (Regular.newTimer { total := 3500000000, delay := 1000000000, min := 0 }) 0)).now,
       (runTrace RegularTimer.nextSleep
          [Op.setNow 500000000, Op.next false, Op.setNow 2000000000, Op.next false,
           Op.setNow 2100000000, Op.next false, Op.setNow 3000000000, Op.next false]
          (Start (Regular.newTimer { total := 3500000000, delay := 1000000000, min := 0 }) 0)).now]
      = [500000000, 2000000000, 3000000000, 3000000000] := by
  refine ⟨?_, ?_, ?_, by decide, by decide⟩
  · intro hmin hlate
    have hnot : ¬ t.attempts < t.strategy.min := by omega
    simp [RegularTimer.nextSleep, hnot, hlate]
  · intro hdel
    by_cases hmin : t.attempts < t.strategy.min
    · simpa [RegularTimer.nextSleep, hmin] using hdel
    · simp only [RegularTimer.nextSleep, if_neg hmin]
      by_cases hlate : t.instant + t.strategy.delay ≤ now
      · simp [hlate]
      · simp [hlate]
        omega
  · intro hmin hontime
    have hnot : ¬ t.attempts < t.strategy.min := by omega
    by_cases hlate : t.instant + t.strategy.delay ≤ now
    · have : now = t.instant + t.strategy.delay := le_antisymm hontime hlate
      simp [RegularTimer.nextSleep, hnot, hlate, this]
    · simp [RegularTimer.nextSleep, hnot, hlate]

/-- Witness for C7 at Regular(total=3.5e9, delay=1e9) after the first (free)
attempt, queried late at 2e9 against a scheduled instant of 1e9. -/
theorem C7_witness :
    ((Regular.newTimer { total := 3500000000, delay := 1000000000, min := 0 } 0).nextSleep
        2000000000).1 = 0
    ∧ 0 ≤ ((Regular.newTimer { total := 3500000000, delay := 1000000000, min := 0 } 0).nextSleep
        2000000000).1
    ∧ ((Regular.newTimer { total := 3500000000, delay := 1000000000, min := 0 } 0).nextSleep
        500000000).2.2.instant = 1000000000 :=
  ⟨(C7_regular_no_drift
      (Regular.newTimer { total := 3500000000, delay := 1000000000, min := 0 } 0)
      2000000000).1 (by decide) (by decide),
   (C7_regular_no_drift
      (Regular.newTimer { total := 3500000000, delay := 1000000000, min := 0 } 0)
      2000000000).2.1 (by decide),
   (C7_regular_no_drift
      (Regular.newTimer { total := 3500000000, delay := 1000000000, min := 0 } 0)
      500000000).2.2.1 (by decide) (by decide)⟩

/-- Claim C8: for a `Regular` strategy with a min-attempts floor, while
attempts-so-far < min the timer always reports continue with sleep = delay,
ignoring the total elapsed-time budget; concretely,
Regular(total=1e8, delay=0, min=2) started at 0 and queried only at time
2e8 — after the 1e8 budget has long elapsed — still grants a second attempt
(two `Next` calls return true, `count` reaches 2) before stopping. -/
theorem C8_regular_min_floor (t : RegularTimer) (now : Int)
    (h : t.attempts < t.strategy.min) :
    t.nextSleep now
      = (t.strategy.delay, true,
          { t with instant := now + t.strategy.delay, attempts := t.attempts + 1 })
    ∧ results RegularTimer.nextSleep
        [Op.setNow 200000000, Op.next false, Op.next false, Op.next false]
        (Start (Regular.newTimer { total := 100000000, delay := 0, min := 2 }) 0)
      = [true, true, false]
    ∧ (runTrace RegularTimer.nextSleep
        [Op.setNow 200000000, Op.next false, Op.next false, Op.next false]
        (Start (Regular.newTimer { total := 100000000, delay := 0, min := 2 }) 0)).count
      = 2 := by
  exact ⟨by simp [RegularTimer.nextSleep, h], by decide, by decide⟩

/-- Witness for C8 on the min-floor branch itself: Regular(total=1e8,
delay=0, min=2) after one attempt, queried at 2e8, continues with sleep 0. -/
theorem C8_witness :
    (Regular.newTimer { total := 100000000, delay := 0, min := 2 } 0).attempts
        < (Regular.newTimer { total := 100000000, delay := 0, min := 2 } 0).strategy.min
    ∧ (Regular.newTimer { total := 100000000, delay := 0, min := 2 } 0).nextSleep 200000000
      = (0, true, { strategy := { total := 100000000, delay := 0, min := 2 },
                    start := 0, instant := 200000000, attempts := 2 }) :=
  ⟨by decide,
   (C8_regular_min_floor
      (Regular.newTimer { total := 100000000, delay := 0, min := 2 } 0)
      200000000 (by decide)).1⟩

/-- Modelled from the spec: the `Exponential` strategy (its implementation is
not among the sources; only its tests and callers are).  "Exponential: delay
starts at an initial value and multiplies by a factor each attempt, unbounded
unless wrapped."  The factor is a (possibly non-integral, e.g. 1.5) ratio,
modelled as a rational; the initial delay is a duration in nanoseconds. -/
structure Exponential where
  initial : Int
  factor : ℚ
deriving DecidableEq, Repr

/-- Modelled from the spec: the stateful cursor of an `Exponential` strategy:
the nominal wake instant of the last granted attempt (the start time at
creation) and the delay to apply before the next one (initially `initial`;
multiplied by `factor` at each query). -/
structure ExpTimer where
  strategy : Exponential
  delay : ℚ
  instant : ℚ
deriving DecidableEq, Repr

/-- Modelled from the spec: `Exponential.NewTimer(now)`. -/
def Exponential.newTimer (e : Exponential) (now : Int) : ExpTimer :=
  { strategy := e, delay := (e.initial : ℚ), instant := (now : ℚ) }

/-- Modelled from the spec: `Exponential`'s `NextSleep`: "first sleep is
initial; each subsequent sleep multiplies the previous by factor.  Never
terminates on its own (continue is always true)".  Per the Timer contract the
sleep is measured against the nominal schedule, reduced by any lateness and
never negative; the returned duration is the rational sleep truncated to
whole nanoseconds. -/
def ExpTimer.nextSleep (t : ExpTimer) (now : Int) : Int × Bool × ExpTimer :=
  let nominal := t.instant + t.delay
  let sleep : ℚ := max 0 (nominal - (now : ℚ))
  (Rat.floor sleep, true,
    { t with delay := t.delay * t.strategy.factor, instant := nominal })

/-- The floor of an integer cast into `ℚ` is that integer. -/
theorem rat_floor_intCast (n : Int) : Rat.floor ((n : ℚ)) = n := by
  rw [Rat.floor_def']
  simp

/-- Claim C9: an `Exponential` strategy never terminates on its own — its
timer always reports continue — each query multiplies the pending delay by
the factor and advances the nominal schedule by exactly the previous delay,
the first sleep equals `initial` when queried at the start time, and for
Exponential(initial=1e9, factor=2) started at 0, `Next` calls at elapsed
times 0, 0.1e9, 1e9, 3e9, 7e9 all succeed with sleeps 0, 0.9e9, 2e9, 4e9,
8e9 (the clock after each call reads 0, 1e9, 3e9, 7e9, 15e9). -/
theorem C9_exponential_unbounded (t : ExpTimer) (now : Int)
    (e : Exponential) (now0 : Int) :
    (t.nextSleep now).2.1 = true
    ∧ (t.nextSleep now).2.2.delay = t.delay * t.strategy.factor
    ∧ (t.nextSleep now).2.2.instant = t.instant + t.delay
    ∧ (0 ≤ e.initial → ((e.newTimer now0).nextSleep now0).1 = e.initial)
    ∧ results ExpTimer.nextSleep
        [Op.setNow 0, Op.next false, Op.setNow 100000000, Op.next false,
         Op.setNow 1000000000, Op.next false, Op.setNow 3000000000, Op.next false,
         Op.setNow 7000000000, Op.next false]
        (Start (Exponential.newTimer { initial := 1000000000, factor := 2 }) 0)
      = [true, true, true, true, true]
    ∧ [(runTrace ExpTimer.nextSleep
          [Op.setNow 0, Op.next false]
          (Start (Exponential.newTimer { initial := 1000000000, factor := 2 }) 0)).now,
       (runTrace ExpTimer.nextSleep
          [Op.setNow 0, Op.next false, Op.setNow 100000000, Op.next false]
          (Start (Exponential.newTimer { initial := 1000000000, factor := 2 }) 0)).now,
       (runTrace ExpTimer.nextSleep
          [Op.setNow 0, Op.next false, Op.setNow 100000000, Op.next false,
           Op.setNow 1000000000, Op.next false]
          (Start (Exponential.newTimer { initial := 1000000000, factor := 2 }) 0)).now,
       (runTrace ExpTimer.nextSleep
          [Op.setNow 0, Op.next false, Op.setNow 100000000, Op.next false,
           Op.setNow 1000000000, Op.next false, Op.setNow 3000000000, Op.next false]
          (Start (Exponential.newTimer { initial := 1000000000, factor := 2 }) 0)).now,
       (runTrace ExpTimer.nextSleep
          [Op.setNow 0, Op.next false, Op.setNow 100000000, Op.next false,
           Op.setNow 1000000000, Op.next false, Op.setNow 3000000000, Op.next false,
           Op.setNow 7000000000, Op.next false]
          (Start (Exponential.newTimer { initial := 1000000000, factor := 2 }) 0)).now]
      = [0, 1000000000, 3000000000, 7000000000, 15000000000] := by
  refine ⟨rfl, rfl, rfl, ?_, by with_unfolding_all rfl, by with_unfolding_all rfl⟩
  intro hinit
  have hmax : max (0:ℚ) (((now0 : ℚ) + (e.initial : ℚ)) - (now0 : ℚ)) = (e.initial : ℚ) := by
    have : ((now0 : ℚ) + (e.initial : ℚ)) - (now0 : ℚ) = (e.initial : ℚ) := by ring
    rw [this]
    exact max_eq_right (by exact_mod_cast hinit)
  simp only [ExpTimer.nextSleep, Exponential.newTimer, hmax]
  exact rat_floor_intCast e.initial

/-- Witness for C9: Exponential(initial=1e9, factor=2) queried at its start
time sleeps exactly 1e9. -/
theorem C9_witness :
    (0:Int) ≤ (1000000000:Int)
    ∧ ((Exponential.newTimer { initial := 1000000000, factor := 2 } 0).nextSleep 0).1
      = 1000000000 :=
  ⟨by decide,
   (C9_exponential_unbounded
      (Exponential.newTimer { initial := 1000000000, factor := 2 } 0) 0
      { initial := 1000000000, factor := 2 } 0).2.2.2.1 (by decide)⟩

end Retry
